import Mathlib

/-!
Verification of the subrecord parser and payload decompressor of the
esplugin repository (src/subrecord.rs), shallowly embedded in Lean 4.

Bytes are modelled as natural numbers (each in 0..255); byte slices as
lists of naturals.  The nom parse result is modelled as an `Except`
value: `ok (remaining, value)` for `IResult::Done`, `error incomplete`
for `IResult::Incomplete` and `error malformed` for `IResult::Error`.
-/

namespace Esplugin

/-- Game identifiers, from game_id.rs (only Morrowind is behaviourally
distinguished by subrecord.rs). -/
inductive GameId where
  | morrowind
  | oblivion
  | skyrim
  | fallout3
  | falloutNV
  | fallout4
deriving DecidableEq

/-- The Subrecord struct of src/subrecord.rs.  The Rust String field
`subrecord_type` is modelled by its UTF-8 byte list. -/
structure Subrecord where
  subrecord_type : List Nat
  data : List Nat
  is_compressed : Bool
deriving DecidableEq

/-- The two failure families of a nom 3 parser: `Incomplete(Needed)`
(too little input) and `Error(ErrorKind)` (malformed input, here only
produced by the `map_res` UTF-8 conversion inside `take_str!`). -/
inductive NomErr where
  | incomplete
  | malformed
deriving DecidableEq

instance {ε α : Type} [DecidableEq ε] [DecidableEq α] : DecidableEq (Except ε α) :=
  fun a b =>
    match a, b with
    | Except.ok x, Except.ok y =>
      if h : x = y then isTrue (by rw [h]) else isFalse (by intro hc; cases hc; exact h rfl)
    | Except.error x, Except.error y =>
      if h : x = y then isTrue (by rw [h]) else isFalse (by intro hc; cases hc; exact h rfl)
    | Except.ok _, Except.error _ => isFalse (by intro hc; cases hc)
    | Except.error _, Except.ok _ => isFalse (by intro hc; cases hc)

/-- nom's `IResult<&[u8], T>`: on success the unconsumed tail and the
parsed value. -/
abbrev IResult (α : Type) : Type := Except NomErr (List Nat × α)

/-- Sequencing of nom parsers, as done by `do_parse!`: a failure of the
first parser propagates, otherwise the continuation runs on the tail. -/
def pseq {α β : Type} (r : IResult α) (f : List Nat → α → IResult β) : IResult β :=
  match r with
  | .error e => .error e
  | .ok (i, a) => f i a

/-- Whether `b` is a UTF-8 continuation byte (0x80..0xBF). -/
def contB (b : Nat) : Bool := decide (0x80 ≤ b ∧ b ≤ 0xBF)

/-- UTF-8 validity of a byte list, as checked by Rust's
`str::from_utf8` (RFC 3629: no overlong forms, no surrogates, no code
points above U+10FFFF). -/
def validUtf8 : List Nat → Bool
  | [] => true
  | b :: rest =>
    if b ≤ 0x7F then validUtf8 rest
    else if b < 0xC2 then false
    else if b ≤ 0xDF then
      match rest with
      | c1 :: rest2 => contB c1 && validUtf8 rest2
      | [] => false
    else if b ≤ 0xEF then
      match rest with
      | c1 :: c2 :: rest3 =>
        (if b = 0xE0 then decide (0xA0 ≤ c1 ∧ c1 ≤ 0xBF)
         else if b = 0xED then decide (0x80 ≤ c1 ∧ c1 ≤ 0x9F)
         else contB c1) && contB c2 && validUtf8 rest3
      | _ => false
    else if b ≤ 0xF4 then
      match rest with
      | c1 :: c2 :: c3 :: rest4 =>
        (if b = 0xF0 then decide (0x90 ≤ c1 ∧ c1 ≤ 0xBF)
         else if b = 0xF4 then decide (0x80 ≤ c1 ∧ c1 ≤ 0x8F)
         else contB c1) && contB c2 && contB c3 && validUtf8 rest4
      | _ => false
    else false

/-- `take_str!(SUBRECORD_TYPE_LENGTH)`: take 4 bytes and require them
to be valid UTF-8.  Fewer than 4 bytes is `Incomplete`; 4 bytes that
are not UTF-8 is `Error` (malformed). -/
def subrecord_type (input : List Nat) : IResult (List Nat) :=
  if input.length < 4 then .error .incomplete
  else if validUtf8 (input.take 4) then .ok (input.drop 4, input.take 4)
  else .error .malformed

/-- nom's `le_u16`: two bytes, little-endian. -/
def le_u16 (input : List Nat) : IResult Nat :=
  match input with
  | b0 :: b1 :: rest => .ok (rest, b0 + 256 * b1)
  | _ => .error .incomplete

/-- nom's `le_u32`: four bytes, little-endian. -/
def le_u32 (input : List Nat) : IResult Nat :=
  match input with
  | b0 :: b1 :: b2 :: b3 :: rest =>
    .ok (rest, b0 + 256 * (b1 + 256 * (b2 + 256 * b3)))
  | _ => .error .incomplete

/-- nom's `take!(n)`: `n` bytes, `Incomplete` when fewer remain. -/
def takeBytes (n : Nat) (input : List Nat) : IResult (List Nat) :=
  if input.length < n then .error .incomplete
  else .ok (input.drop n, input.take n)

/-- `morrowind_subrecord`: type tag, u32 little-endian length, that
many payload bytes; `is_compressed` is hardcoded to `false`. -/
def morrowind_subrecord (input : List Nat) : IResult Subrecord :=
  pseq (subrecord_type input) fun i1 t =>
    pseq (le_u32 i1) fun i2 n =>
      pseq (takeBytes n i2) fun i3 d =>
        .ok (i3, ⟨t, d, false⟩)

/-- `simple_subrecord`: type tag, u16 little-endian length, that many
payload bytes; the `is_compressed` argument is stored verbatim. -/
def simple_subrecord (input : List Nat) (is_compressed : Bool) : IResult Subrecord :=
  pseq (subrecord_type input) fun i1 t =>
    pseq (le_u16 i1) fun i2 n =>
      pseq (takeBytes n i2) fun i3 d =>
        .ok (i3, ⟨t, d, is_compressed⟩)

/-- `presized_subrecord`: type tag, a u16 length field that is consumed
but discarded, then exactly `data_length` payload bytes. -/
def presized_subrecord (input : List Nat) (data_length : Nat)
    (is_compressed : Bool) : IResult Subrecord :=
  pseq (subrecord_type input) fun i1 t =>
    pseq (le_u16 i1) fun i2 _ =>
      pseq (takeBytes data_length i2) fun i3 d =>
        .ok (i3, ⟨t, d, is_compressed⟩)

/-- `Subrecord::new`: dispatch on game id and the length override. -/
def Subrecord.new (input : List Nat) (game_id : GameId)
    (data_length_override : Nat) (is_compressed : Bool) : IResult Subrecord :=
  if game_id = GameId.morrowind then
    morrowind_subrecord input
  else if data_length_override ≠ 0 then
    presized_subrecord input data_length_override is_compressed
  else
    simple_subrecord input is_compressed

/-!
### Raw DEFLATE decoding

Modelled from the spec: `decompress_data` feeds `data[4..]` to
flate2's `DeflateDecoder` and reads it to completion.  flate2 is an
external crate, not part of this repository, so the decoder below is a
model of raw DEFLATE decoding (RFC 1951, without zlib or gzip framing)
built from the spec's words: blocks are read until the final one, each
either stored or Huffman-coded (fixed or dynamic tables), and a
malformed or truncated stream yields `none` (a decompression error).
-/

/-- A DEFLATE bit stream: remaining bits, least-significant bit of
each byte first, with the number of bits already consumed (needed for
byte alignment of stored blocks). -/
structure BitStream where
  bits : List Bool
  pos : Nat
deriving DecidableEq

/-- The bits of a byte list, LSB-first within each byte. -/
def bitsOfBytes (bs : List Nat) : List Bool :=
  bs.flatMap fun b => (List.range 8).map fun i => b.testBit i

/-- Read one bit; `none` when the stream is exhausted (truncated). -/
def readBit (s : BitStream) : Option (Bool × BitStream) :=
  match s.bits with
  | [] => none
  | b :: rest => some (b, ⟨rest, s.pos + 1⟩)

/-- Read `n` bits as an integer, LSB-first. -/
def readBits : Nat → BitStream → Option (Nat × BitStream)
  | 0, s => some (0, s)
  | n + 1, s => do
    let (b, s1) ← readBit s
    let (v, s2) ← readBits n s1
    some ((if b then 1 else 0) + 2 * v, s2)

/-- Discard bits up to the next byte boundary (before a stored block). -/
def skipToByte (s : BitStream) : Option BitStream :=
  let k := (8 - s.pos % 8) % 8
  if s.bits.length < k then none else some ⟨s.bits.drop k, s.pos + k⟩

/-- The symbols to which a code-length assignment gives length `len`,
in increasing symbol order (`lens.get i` is the code length of symbol
`i`; length 0 means the symbol is unused). -/
def symbolsOfLen (lens : List Nat) (len : Nat) : List Nat :=
  (lens.enum.filter fun p => p.2 = len).map fun p => p.1

/-- One step of canonical Huffman decoding: accumulate bits MSB-first
into `code` and compare against the first canonical code of each
successive length. -/
def decodeSymGo (lens : List Nat) : Nat → Nat → Nat → BitStream →
    Option (Nat × BitStream)
  | 0, _, _, _ => none
  | fuel + 1, code, first, s => do
    let (b, s1) ← readBit s
    let code2 := 2 * code + (if b then 1 else 0)
    let syms := symbolsOfLen lens (16 - (fuel + 1))
    if first ≤ code2 ∧ code2 - first < syms.length then
      match syms.get? (code2 - first) with
      | some sym => some (sym, s1)
      | none => none
    else
      decodeSymGo lens fuel code2 ((first + syms.length) * 2) s1

/-- Decode one symbol of the canonical Huffman code described by the
code-length list `lens` (codes are at most 15 bits). -/
def decodeSym (lens : List Nat) (s : BitStream) : Option (Nat × BitStream) :=
  decodeSymGo lens 15 0 0 s

/-- The order in which the code lengths of the code-length alphabet
are stored in a dynamic block header, per section 3.2.7 of RFC 1951
(written here back to front). -/
def clcOrder : List Nat :=
  List.reverse [15, 1, 14, 2, 13, 3, 12, 4, 11, 5, 10, 6, 9, 7, 8, 0, 18, 17, 16]

/-- Read `n` three-bit values (the code lengths of the code-length
alphabet). -/
def readNBits3 (n : Nat) (s : BitStream) : Option (List Nat × BitStream) :=
  match n with
  | 0 => some ([], s)
  | m + 1 =>
    (readBits 3 s).bind fun p =>
      (readNBits3 m p.2).map fun q => (p.1 :: q.1, q.2)

/-- Decode the literal/length and distance code lengths of a dynamic
block, expanding the repeat symbols 16/17/18; a repeat running past
`total` lengths, or a leading repeat-previous, is an error. -/
def readCodeLens (clens : List Nat) (total : Nat) : Nat → List Nat →
    BitStream → Option (List Nat × BitStream)
  | 0, _, _ => none
  | fuel + 1, acc, s =>
    if total ≤ acc.length then
      if acc.length = total then some (acc, s) else none
    else do
      let (sym, s1) ← decodeSym clens s
      if sym ≤ 15 then
        readCodeLens clens total fuel (acc ++ [sym]) s1
      else if sym = 16 then
        match acc.getLast? with
        | none => none
        | some prev => do
          let (e, s2) ← readBits 2 s1
          readCodeLens clens total fuel (acc ++ List.replicate (3 + e) prev) s2
      else if sym = 17 then do
        let (e, s2) ← readBits 3 s1
        readCodeLens clens total fuel (acc ++ List.replicate (3 + e) 0) s2
      else if sym = 18 then do
        let (e, s2) ← readBits 7 s1
        readCodeLens clens total fuel (acc ++ List.replicate (11 + e) 0) s2
      else none

/-- Base match length and extra-bit count of each length symbol
257..285, as (base, extra) pairs, per section 3.2.5 of RFC 1951. -/
def lengthTable : List (Nat × Nat) :=
  [(3, 0), (4, 0), (5, 0), (6, 0), (7, 0), (8, 0), (9, 0), (10, 0),
   (11, 1), (13, 1), (15, 1), (17, 1), (19, 2), (23, 2), (27, 2), (31, 2),
   (35, 3), (43, 3), (51, 3), (59, 3), (67, 4), (83, 4), (99, 4), (115, 4),
   (131, 5), (163, 5), (195, 5), (227, 5), (258, 0)]

/-- Base distance and extra-bit count of each distance symbol 0..29,
as (base, extra) pairs. -/
def distTable : List (Nat × Nat) :=
  [(1, 0), (2, 0), (3, 0), (4, 0), (5, 1), (7, 1), (9, 2), (13, 2),
   (17, 3), (25, 3), (33, 4), (49, 4), (65, 5), (97, 5), (129, 6), (193, 6),
   (257, 7), (385, 7), (513, 8), (769, 8), (1025, 9), (1537, 9),
   (2049, 10), (3073, 10), (4097, 11), (6145, 11), (8193, 12), (12289, 12),
   (16385, 13), (24577, 13)]

/-- LZ77 back-copy: append `n` bytes, each copied from `dist` bytes
before the current end of the output (overlap allowed); a distance of
zero or beyond the start of the output is an error. -/
def lzCopy (out : List Nat) (dist : Nat) : Nat → Option (List Nat)
  | 0 => some out
  | n + 1 =>
    if dist = 0 ∨ out.length < dist then none
    else lzCopy (out ++ [out.getD (out.length - dist) 0]) dist n

/-- Decode the symbols of one Huffman-coded block until its
end-of-block symbol. -/
def inflateBlock (litLens distLens : List Nat) : Nat → List Nat →
    BitStream → Option (List Nat × BitStream)
  | 0, _, _ => none
  | fuel + 1, out, s => do
    let (sym, s1) ← decodeSym litLens s
    if sym < 256 then
      inflateBlock litLens distLens fuel (out ++ [sym]) s1
    else if sym = 256 then
      some (out, s1)
    else if sym ≤ 285 then do
      let lrow := lengthTable.getD (sym - 257) (0, 0)
      let (e, s2) ← readBits lrow.2 s1
      let len := lrow.1 + e
      let (dsym, s3) ← decodeSym distLens s2
      if dsym ≤ 29 then do
        let drow := distTable.getD dsym (0, 0)
        let (de, s4) ← readBits drow.2 s3
        let dist := drow.1 + de
        let out2 ← lzCopy out dist len
        inflateBlock litLens distLens fuel out2 s4
      else none
    else none

/-- Validity of a code-length assignment: the lengths must describe a
complete prefix code (Kraft sum exactly one), except that a code with
at most one used symbol is accepted (this covers the empty and the
one-code distance tables that real streams use). -/
def codeLensValid (lens : List Nat) : Bool :=
  let used := lens.filter fun l => l ≠ 0
  used.length ≤ 1 ||
    decide ((used.foldl (fun acc l => acc + 2 ^ (15 - l)) 0) = 2 ^ 15)

/-- Code lengths of the fixed literal/length code, per section 3.2.6
of RFC 1951: symbols 0..143 have length 8, 144..255 length 9,
256..279 length 7 and 280..287 length 8. -/
def fixedLitLens : List Nat :=
  [(144, 8), (112, 9), (24, 7), (8, 8)].flatMap fun r =>
    List.replicate r.1 r.2

/-- Code lengths of the fixed distance code: all 32 five-bit codes
participate in the construction, although symbols 30 and 31 are
invalid when decoded. -/
def fixedDistLens : List Nat := List.replicate 32 5

/-- Read `n` byte-aligned bytes (the payload of a stored block). -/
def readAlignedBytes (n : Nat) (s : BitStream) : Option (List Nat × BitStream) :=
  match n with
  | 0 => some ([], s)
  | m + 1 =>
    (readBits 8 s).bind fun p =>
      (readAlignedBytes m p.2).map fun q => (p.1 :: q.1, q.2)

/-- Decode DEFLATE blocks until (and including) the final one,
accumulating output in `out`; trailing bits after the final block are
left unread. -/
def inflateBlocks : Nat → List Nat → BitStream → Option (List Nat)
  | 0, _, _ => none
  | fuel + 1, out, s => do
    let (bfinal, s1) ← readBit s
    let (btype, s2) ← readBits 2 s1
    let r ←
      if btype = 0 then do
        let s3 ← skipToByte s2
        let (len, s4) ← readBits 16 s3
        let (nlen, s5) ← readBits 16 s4
        if len + nlen = 65535 then do
          let (bytes, s6) ← readAlignedBytes len s5
          some (out ++ bytes, s6)
        else none
      else if btype = 1 then
        inflateBlock fixedLitLens fixedDistLens (s2.bits.length + 1) out s2
      else if btype = 2 then do
        let (hlit, s3) ← readBits 5 s2
        let (hdist, s4) ← readBits 5 s3
        let (hclen, s5) ← readBits 4 s4
        let (clvs, s6) ← readNBits3 (hclen + 4) s5
        let assoc := (clcOrder.take (hclen + 4)).zip clvs
        let clens := (List.range 19).map fun i =>
          ((assoc.find? fun p => p.1 = i).map fun p => p.2).getD 0
        if codeLensValid clens then do
          let total := hlit + 257 + (hdist + 1)
          let (allLens, s7) ← readCodeLens clens total (total + 1) [] s6
          let litLens := allLens.take (hlit + 257)
          let distLens := allLens.drop (hlit + 257)
          if codeLensValid litLens && codeLensValid distLens then
            inflateBlock litLens distLens (s7.bits.length + 1) out s7
          else none
        else none
      else none
    if bfinal then some r.1 else inflateBlocks fuel r.1 r.2

/-- Raw DEFLATE decoding of a byte stream, reading the stream to
completion; `none` on a malformed or truncated stream. -/
def inflate (bytes : List Nat) : Option (List Nat) :=
  inflateBlocks (8 * bytes.length + 1) [] ⟨bitsOfBytes bytes, 0⟩

/-- The decompression error of `decompress_data` (an `io::Error` from
the DEFLATE decoder in the Rust code). -/
inductive DecompErr where
  | corrupt
deriving DecidableEq

/-- `Subrecord::decompress_data`.  An uncompressed subrecord's data is
returned as a copy; otherwise `data[4..]` is DEFLATE-decoded.  The
outer `Option` models partiality of the Rust slice `&self.data[4..]`:
`none` is the index-out-of-range panic raised when `data` has fewer
than 4 bytes. -/
def decompress_data (s : Subrecord) : Option (Except DecompErr (List Nat)) :=
  if s.is_compressed = false then
    some (Except.ok s.data)
  else if s.data.length < 4 then
    none
  else
    match inflate (s.data.drop 4) with
    | some out => some (Except.ok out)
    | none => some (Except.error DecompErr.corrupt)

/-- The code points of a string as naturals (for ASCII expectations). -/
def asciiOf (s : String) : List Nat := s.data.map fun c => c.toNat

/-- The little-endian value of a byte list (the wire encoding of the
length fields). -/
def leNat (bs : List Nat) : Nat := bs.foldr (fun b acc => b + 256 * acc) 0

/-!
### Helper lemmas about the primitive parsers
-/

theorem pseq_error {α β : Type} {e : NomErr} {f : List Nat → α → IResult β} :
    pseq (Except.error e) f = Except.error e := rfl

theorem pseq_ok_app {α β : Type} {i : List Nat} {a : α}
    {f : List Nat → α → IResult β} : pseq (Except.ok (i, a)) f = f i a := rfl

theorem pseq_ok_elim {α β : Type} {r : IResult α} {f : List Nat → α → IResult β}
    {x : List Nat × β} (h : pseq r f = Except.ok x) :
    ∃ i a, r = Except.ok (i, a) ∧ f i a = Except.ok x := by
  cases r with
  | error e => simp [pseq] at h
  | ok p => exact ⟨p.1, p.2, rfl, h⟩

theorem subrecord_type_short {input : List Nat} (h : input.length < 4) :
    subrecord_type input = Except.error NomErr.incomplete := by
  simp [subrecord_type, h]

theorem subrecord_type_of_valid {input : List Nat} (h4 : 4 ≤ input.length)
    (hv : validUtf8 (input.take 4) = true) :
    subrecord_type input = Except.ok (input.drop 4, input.take 4) := by
  simp [subrecord_type, Nat.not_lt.mpr h4, hv]

theorem subrecord_type_of_invalid {input : List Nat} (h4 : 4 ≤ input.length)
    (hv : validUtf8 (input.take 4) = false) :
    subrecord_type input = Except.error NomErr.malformed := by
  simp [subrecord_type, Nat.not_lt.mpr h4, hv]

theorem subrecord_type_ok {input i t : List Nat}
    (h : subrecord_type input = Except.ok (i, t)) :
    4 ≤ input.length ∧ validUtf8 (input.take 4) = true ∧
      i = input.drop 4 ∧ t = input.take 4 := by
  by_cases h4 : input.length < 4
  · rw [subrecord_type_short h4] at h; cases h
  · by_cases hv : validUtf8 (input.take 4)
    · rw [subrecord_type_of_valid (Nat.not_lt.mp h4) hv] at h
      cases h
      exact ⟨Nat.not_lt.mp h4, hv, rfl, rfl⟩
    · rw [subrecord_type_of_invalid (Nat.not_lt.mp h4) (Bool.eq_false_iff.mpr hv)] at h
      cases h

theorem le_u16_short {l : List Nat} (h : l.length < 2) :
    le_u16 l = Except.error NomErr.incomplete := by
  match l with
  | [] => rfl
  | [b0] => rfl
  | b0 :: b1 :: rest => simp at h; omega

theorem le_u16_of_len {l : List Nat} (h : 2 ≤ l.length) :
    le_u16 l = Except.ok (l.drop 2, leNat (l.take 2)) := by
  match l with
  | [] => simp at h
  | [b0] => simp at h
  | b0 :: b1 :: rest => simp [le_u16, leNat]

theorem le_u16_ok {l i : List Nat} {n : Nat} (h : le_u16 l = Except.ok (i, n)) :
    2 ≤ l.length ∧ i = l.drop 2 ∧ n = leNat (l.take 2) := by
  by_cases h2 : l.length < 2
  · rw [le_u16_short h2] at h; cases h
  · rw [le_u16_of_len (Nat.not_lt.mp h2)] at h
    cases h; exact ⟨Nat.not_lt.mp h2, rfl, rfl⟩

theorem le_u32_short {l : List Nat} (h : l.length < 4) :
    le_u32 l = Except.error NomErr.incomplete := by
  match l with
  | [] => rfl
  | [b0] => rfl
  | [b0, b1] => rfl
  | [b0, b1, b2] => rfl
  | b0 :: b1 :: b2 :: b3 :: rest => simp at h; omega

theorem le_u32_of_len {l : List Nat} (h : 4 ≤ l.length) :
    le_u32 l = Except.ok (l.drop 4, leNat (l.take 4)) := by
  match l with
  | [] => simp at h
  | [b0] => simp at h
  | [b0, b1] => simp at h
  | [b0, b1, b2] => simp at h
  | b0 :: b1 :: b2 :: b3 :: rest => simp [le_u32, leNat]

theorem le_u32_ok {l i : List Nat} {n : Nat} (h : le_u32 l = Except.ok (i, n)) :
    4 ≤ l.length ∧ i = l.drop 4 ∧ n = leNat (l.take 4) := by
  by_cases h4 : l.length < 4
  · rw [le_u32_short h4] at h; cases h
  · rw [le_u32_of_len (Nat.not_lt.mp h4)] at h
    cases h; exact ⟨Nat.not_lt.mp h4, rfl, rfl⟩

theorem takeBytes_short {n : Nat} {l : List Nat} (h : l.length < n) :
    takeBytes n l = Except.error NomErr.incomplete := by
  simp [takeBytes, h]

theorem takeBytes_of_len {n : Nat} {l : List Nat} (h : n ≤ l.length) :
    takeBytes n l = Except.ok (l.drop n, l.take n) := by
  simp [takeBytes, Nat.not_lt.mpr h]

theorem takeBytes_ok {n : Nat} {l i d : List Nat}
    (h : takeBytes n l = Except.ok (i, d)) :
    n ≤ l.length ∧ i = l.drop n ∧ d = l.take n ∧ d.length = n := by
  by_cases hn : l.length < n
  · rw [takeBytes_short hn] at h; cases h
  · rw [takeBytes_of_len (Nat.not_lt.mp hn)] at h
    cases h
    exact ⟨Nat.not_lt.mp hn, rfl, rfl, by
      simp [List.length_take]; omega⟩

/-!
### Inversion lemmas for the three wire variants
-/

theorem morrowind_subrecord_ok {input rem : List Nat} {s : Subrecord}
    (h : morrowind_subrecord input = Except.ok (rem, s)) :
    4 ≤ input.length ∧ validUtf8 (input.take 4) = true ∧
      s.subrecord_type = input.take 4 ∧
      s.data = (input.drop 8).take (leNat ((input.drop 4).take 4)) ∧
      s.data.length = leNat ((input.drop 4).take 4) ∧
      s.is_compressed = false ∧
      8 + leNat ((input.drop 4).take 4) ≤ input.length ∧
      rem = input.drop (8 + leNat ((input.drop 4).take 4)) := by
  obtain ⟨i1, t, h1, h⟩ := pseq_ok_elim h
  obtain ⟨i2, n, h2, h⟩ := pseq_ok_elim h
  obtain ⟨i3, d, h3, h⟩ := pseq_ok_elim h
  obtain ⟨h4, hv, hi1, ht⟩ := subrecord_type_ok h1
  subst hi1; subst ht
  obtain ⟨hl2, hi2, hn⟩ := le_u32_ok h2
  subst hi2; subst hn
  obtain ⟨hl3, hi3, hd, hdl⟩ := takeBytes_ok h3
  subst hi3; subst hd
  cases h
  have hlen8 : 8 ≤ input.length := by
    have := hl2; simp only [List.length_drop] at this; omega
  have hl3' : leNat ((input.drop 4).take 4) ≤ input.length - 8 := by
    have := hl3
    simp only [List.drop_drop, List.length_drop] at this
    omega
  refine ⟨h4, hv, rfl, by simp [List.drop_drop], by simpa [List.drop_drop] using hdl,
    rfl, by omega, ?_⟩
  simp only [List.drop_drop]

theorem simple_subrecord_ok {input rem : List Nat} {c : Bool} {s : Subrecord}
    (h : simple_subrecord input c = Except.ok (rem, s)) :
    4 ≤ input.length ∧ validUtf8 (input.take 4) = true ∧
      s.subrecord_type = input.take 4 ∧
      s.data = (input.drop 6).take (leNat ((input.drop 4).take 2)) ∧
      s.data.length = leNat ((input.drop 4).take 2) ∧
      s.is_compressed = c ∧
      6 + leNat ((input.drop 4).take 2) ≤ input.length ∧
      rem = input.drop (6 + leNat ((input.drop 4).take 2)) := by
  obtain ⟨i1, t, h1, h⟩ := pseq_ok_elim h
  obtain ⟨i2, n, h2, h⟩ := pseq_ok_elim h
  obtain ⟨i3, d, h3, h⟩ := pseq_ok_elim h
  obtain ⟨h4, hv, hi1, ht⟩ := subrecord_type_ok h1
  subst hi1; subst ht
  obtain ⟨hl2, hi2, hn⟩ := le_u16_ok h2
  subst hi2; subst hn
  obtain ⟨hl3, hi3, hd, hdl⟩ := takeBytes_ok h3
  subst hi3; subst hd
  cases h
  have hlen6 : 6 ≤ input.length := by
    have := hl2; simp only [List.length_drop] at this; omega
  have hl3' : leNat ((input.drop 4).take 2) ≤ input.length - 6 := by
    have := hl3
    simp only [List.drop_drop, List.length_drop] at this
    omega
  refine ⟨h4, hv, rfl, by simp [List.drop_drop], by simpa [List.drop_drop] using hdl,
    rfl, by omega, ?_⟩
  simp only [List.drop_drop]

theorem presized_subrecord_ok {input rem : List Nat} {o : Nat} {c : Bool}
    {s : Subrecord} (h : presized_subrecord input o c = Except.ok (rem, s)) :
    4 ≤ input.length ∧ validUtf8 (input.take 4) = true ∧
      s.subrecord_type = input.take 4 ∧
      s.data = (input.drop 6).take o ∧
      s.data.length = o ∧
      s.is_compressed = c ∧
      6 + o ≤ input.length ∧
      rem = input.drop (6 + o) := by
  obtain ⟨i1, t, h1, h⟩ := pseq_ok_elim h
  obtain ⟨i2, n, h2, h⟩ := pseq_ok_elim h
  obtain ⟨i3, d, h3, h⟩ := pseq_ok_elim h
  obtain ⟨h4, hv, hi1, ht⟩ := subrecord_type_ok h1
  subst hi1; subst ht
  obtain ⟨hl2, hi2, hn⟩ := le_u16_ok h2
  subst hi2
  obtain ⟨hl3, hi3, hd, hdl⟩ := takeBytes_ok h3
  subst hi3; subst hd
  cases h
  have hlen6 : 6 ≤ input.length := by
    have := hl2; simp only [List.length_drop] at this; omega
  have hl3' : o ≤ input.length - 6 := by
    have := hl3
    simp only [List.drop_drop, List.length_drop] at this
    omega
  refine ⟨h4, hv, rfl, by simp [List.drop_drop], by simpa [List.drop_drop] using hdl,
    rfl, by omega, ?_⟩
  simp only [List.drop_drop]

/-!
### Incomplete-input lemmas
-/

theorem morrowind_subrecord_incomplete {input : List Nat}
    (htag : input.length < 4 ∨ validUtf8 (input.take 4) = true)
    (hshort : input.length <
      (if input.length < 8 then 8 else 8 + leNat ((input.drop 4).take 4))) :
    morrowind_subrecord input = Except.error NomErr.incomplete := by
  by_cases h4 : input.length < 4
  · rw [morrowind_subrecord, subrecord_type_short h4, pseq_error]
  · have hv : validUtf8 (input.take 4) = true := htag.resolve_left h4
    rw [morrowind_subrecord, subrecord_type_of_valid (Nat.not_lt.mp h4) hv, pseq_ok_app]
    by_cases h8 : input.length < 8
    · have hd4 : (input.drop 4).length < 4 := by
        simp only [List.length_drop]; omega
      rw [le_u32_short hd4, pseq_error]
    · rw [if_neg h8] at hshort
      have h8' : 4 ≤ (input.drop 4).length := by
        simp only [List.length_drop]; omega
      rw [le_u32_of_len h8', pseq_ok_app]
      have hlen : ((input.drop 4).drop 4).length < leNat ((input.drop 4).take 4) := by
        simp only [List.drop_drop, List.length_drop]
        omega
      rw [takeBytes_short hlen, pseq_error]

theorem simple_subrecord_incomplete {input : List Nat} {c : Bool}
    (htag : input.length < 4 ∨ validUtf8 (input.take 4) = true)
    (hshort : input.length <
      (if input.length < 6 then 6 else 6 + leNat ((input.drop 4).take 2))) :
    simple_subrecord input c = Except.error NomErr.incomplete := by
  by_cases h4 : input.length < 4
  · rw [simple_subrecord, subrecord_type_short h4, pseq_error]
  · have hv : validUtf8 (input.take 4) = true := htag.resolve_left h4
    rw [simple_subrecord, subrecord_type_of_valid (Nat.not_lt.mp h4) hv, pseq_ok_app]
    by_cases h6 : input.length < 6
    · have hd2 : (input.drop 4).length < 2 := by
        simp only [List.length_drop]; omega
      rw [le_u16_short hd2, pseq_error]
    · rw [if_neg h6] at hshort
      have h6' : 2 ≤ (input.drop 4).length := by
        simp only [List.length_drop]; omega
      rw [le_u16_of_len h6', pseq_ok_app]
      have hlen : ((input.drop 4).drop 2).length < leNat ((input.drop 4).take 2) := by
        simp only [List.drop_drop, List.length_drop]
        omega
      rw [takeBytes_short hlen, pseq_error]

theorem presized_subrecord_incomplete {input : List Nat} {o : Nat} {c : Bool}
    (htag : input.length < 4 ∨ validUtf8 (input.take 4) = true)
    (hshort : input.length < 6 + o) :
    presized_subrecord input o c = Except.error NomErr.incomplete := by
  by_cases h4 : input.length < 4
  · rw [presized_subrecord, subrecord_type_short h4, pseq_error]
  · have hv : validUtf8 (input.take 4) = true := htag.resolve_left h4
    rw [presized_subrecord, subrecord_type_of_valid (Nat.not_lt.mp h4) hv, pseq_ok_app]
    by_cases h6 : input.length < 6
    · have hd2 : (input.drop 4).length < 2 := by
        simp only [List.length_drop]; omega
      rw [le_u16_short hd2, pseq_error]
    · have h6' : 2 ≤ (input.drop 4).length := by
        simp only [List.length_drop]; omega
      rw [le_u16_of_len h6', pseq_ok_app]
      have hlen : ((input.drop 4).drop 2).length < o := by
        simp only [List.drop_drop, List.length_drop]
        omega
      rw [takeBytes_short hlen, pseq_error]

/-!
### Concrete inputs (the test vectors of subrecord.rs and the spec)
-/

/-- The TES3 DATA subrecord test vector (Morrowind long-length). -/
def tes3Input : List Nat :=
  [0x44, 0x41, 0x54, 0x41, 0x08, 0x00, 0x00, 0x00,
   0x6D, 0x63, 0x61, 0x72, 0x6F, 0x66, 0x61, 0x6E]

/-- The TES4 CNAM subrecord test vector (short-length / presized). -/
def tes4Input : List Nat :=
  [0x43, 0x4E, 0x41, 0x4D, 0x0A, 0x00,
   0x6D, 0x63, 0x61, 0x72, 0x6F, 0x66, 0x61, 0x6E, 0x6F, 0x00]

/-- The compressed BPTN subrecord test vector (scenario 5). -/
def bptnInput : List Nat :=
  [0x42, 0x50, 0x54, 0x4E, 0x1D, 0x00, 0x19, 0x00, 0x00, 0x00,
   0x75, 0xc5, 0x21, 0x0d, 0x00, 0x00, 0x08, 0x05, 0xd1, 0x6c,
   0x6c, 0xdc, 0x57, 0x48, 0x3c, 0xfd, 0x5b, 0x5c, 0x02, 0xd4,
   0x6b, 0x32, 0xb5, 0xdc, 0xa3]

/-- Scenario 6: the BPTN vector with one payload byte altered
(0x08 at offset 16 becomes 0xA8), invalidating the DEFLATE stream. -/
def bptnCorruptInput : List Nat :=
  [0x42, 0x50, 0x54, 0x4E, 0x1D, 0x00, 0x19, 0x00, 0x00, 0x00,
   0x75, 0xc5, 0x21, 0x0d, 0x00, 0x00, 0xA8, 0x05, 0xd1, 0x6c,
   0x6c, 0xdc, 0x57, 0x48, 0x3c, 0xfd, 0x5b, 0x5c, 0x02, 0xd4,
   0x6b, 0x32, 0xb5, 0xdc, 0xa3]

/-- An input whose type tag is not valid UTF-8 and whose claimed
payload length (5) exceeds the remaining input (0 bytes). -/
def nonUtf8ShortInput : List Nat := [0xFF, 0xFF, 0xFF, 0xFF, 0x05, 0x00]

/-- A valid-tag input truncated inside the claimed 5-byte payload. -/
def truncatedInput : List Nat := [0x44, 0x41, 0x54, 0x41, 0x05, 0x00]

/-- A short-length subrecord with on-wire length 0 and no payload. -/
def emptyPayloadInput : List Nat := [0x44, 0x41, 0x54, 0x41, 0x00, 0x00]

/-- How many input bytes parsing with the given mode needs: the fixed
fields (type tag plus length field), then a payload of the claimed
length once the length can be decoded. -/
def requiredLen (input : List Nat) (game_id : GameId)
    (data_length_override : Nat) : Nat :=
  if game_id = GameId.morrowind then
    if input.length < 8 then 8 else 8 + leNat ((input.drop 4).take 4)
  else if data_length_override ≠ 0 then
    6 + data_length_override
  else
    if input.length < 6 then 6 else 6 + leNat ((input.drop 4).take 2)

/-- `presized_subrecord` on an input split as a 4-byte tag, two length
bytes and the rest, in normal form: the two length bytes are consumed
and their values discarded. -/
theorem presized_subrecord_shape {t : List Nat} {a b : Nat} {rest : List Nat}
    (ht : t.length = 4) (o : Nat) (c : Bool) :
    presized_subrecord (t ++ a :: b :: rest) o c =
      (if validUtf8 t then
        pseq (takeBytes o rest) fun i3 d => Except.ok (i3, ⟨t, d, c⟩)
      else Except.error NomErr.malformed) := by
  have h4 : 4 ≤ (t ++ a :: b :: rest).length := by simp [ht]
  have htake : (t ++ a :: b :: rest).take 4 = t := List.take_left' ht
  have hdrop : (t ++ a :: b :: rest).drop 4 = a :: b :: rest := List.drop_left' ht
  by_cases hv : validUtf8 t
  · rw [presized_subrecord,
      subrecord_type_of_valid h4 (by rw [htake]; exact hv), pseq_ok_app,
      htake, hdrop]
    rw [show le_u16 (a :: b :: rest) = Except.ok (rest, a + 256 * b) from rfl,
      pseq_ok_app, if_pos hv]
  · rw [presized_subrecord,
      subrecord_type_of_invalid h4 (by rw [htake]; exact Bool.eq_false_iff.mpr hv),
      pseq_error, if_neg hv]

/-!
### The claims
-/

/-- Claim C1, counterexample: parsing the Morrowind test vector with
`is_compressed = true` succeeds, but the returned Subrecord carries
`is_compressed = false` — the long-length parser hardcodes the flag,
so the output flag does not equal the argument for Morrowind. -/
theorem spec_c1_counterexample :
    Subrecord.new tes3Input GameId.morrowind 0 true =
      Except.ok ([], ⟨asciiOf ("DATA"),
        [0x6D, 0x63, 0x61, 0x72, 0x6F, 0x66, 0x61, 0x6E], false⟩) ∧
    (false : Bool) ≠ (true : Bool) := ⟨rfl, by decide⟩

/-- Claim C1 (amended): for every input on which parsing succeeds, the
`is_compressed` field of the returned Subrecord equals the
`is_compressed` argument whenever `game_id ≠ Morrowind`; for Morrowind
it is always `false`, regardless of the argument, for every
`data_length_override`. -/
theorem spec_c1 :
    ∀ (input : List Nat) (g : GameId) (o : Nat) (c : Bool)
      (rem : List Nat) (s : Subrecord),
      Subrecord.new input g o c = Except.ok (rem, s) →
      s.is_compressed = (if g = GameId.morrowind then false else c) := by
  intro input g o c rem s h
  by_cases hg : g = GameId.morrowind
  · rw [Subrecord.new, if_pos hg] at h
    rw [if_pos hg]
    exact (morrowind_subrecord_ok h).2.2.2.2.2.1
  · rw [Subrecord.new, if_neg hg] at h
    rw [if_neg hg]
    by_cases ho : o ≠ 0
    · rw [if_pos ho] at h
      exact (presized_subrecord_ok h).2.2.2.2.2.1
    · rw [if_neg ho] at h
      exact (simple_subrecord_ok h).2.2.2.2.2.1

/-- Witness for C1: the Morrowind test vector parsed with the flag set
to true yields a Subrecord whose flag is the hardcoded false. -/
theorem spec_c1_witness :
    (⟨asciiOf ("DATA"), [0x6D, 0x63, 0x61, 0x72, 0x6F, 0x66, 0x61, 0x6E],
        false⟩ : Subrecord).is_compressed =
      (if GameId.morrowind = GameId.morrowind then false else true) :=
  spec_c1 tes3Input GameId.morrowind 0 true []
    ⟨asciiOf ("DATA"), [0x6D, 0x63, 0x61, 0x72, 0x6F, 0x66, 0x61, 0x6E], false⟩
    rfl

/-- Claim C2: Morrowind dispatches to the long-length variant with the
override (and the compression flag) having no effect; otherwise a
non-zero override selects the presized variant and a zero override the
short-length variant. -/
theorem spec_c2 :
    ∀ (input : List Nat) (g : GameId) (o : Nat) (c : Bool),
      (g = GameId.morrowind →
        Subrecord.new input g o c = morrowind_subrecord input) ∧
      (g ≠ GameId.morrowind → o ≠ 0 →
        Subrecord.new input g o c = presized_subrecord input o c) ∧
      (g ≠ GameId.morrowind → o = 0 →
        Subrecord.new input g o c = simple_subrecord input c) := by
  intro input g o c
  refine ⟨fun hg => ?_, fun hg ho => ?_, fun hg ho => ?_⟩
  · rw [Subrecord.new, if_pos hg]
  · rw [Subrecord.new, if_neg hg, if_pos ho]
  · rw [Subrecord.new, if_neg hg, if_neg (by simpa using ho)]

/-- Witness for C2: all three branches at concrete arguments. -/
theorem spec_c2_witness :
    Subrecord.new tes3Input GameId.morrowind 5 true = morrowind_subrecord tes3Input ∧
    Subrecord.new tes4Input GameId.skyrim 4 false = presized_subrecord tes4Input 4 false ∧
    Subrecord.new tes4Input GameId.oblivion 0 true = simple_subrecord tes4Input true :=
  ⟨(spec_c2 tes3Input GameId.morrowind 5 true).1 rfl,
   (spec_c2 tes4Input GameId.skyrim 4 false).2.1 (by decide) (by decide),
   (spec_c2 tes4Input GameId.oblivion 0 true).2.2 (by decide) rfl⟩

/-- Claim C3: on success, the payload length is the decoded u32 field
(long-length), the decoded u16 field (short-length), or the override
argument (presized). -/
theorem spec_c3 :
    ∀ input : List Nat,
      (∀ (rem : List Nat) (s : Subrecord),
        morrowind_subrecord input = Except.ok (rem, s) →
        s.data.length = leNat ((input.drop 4).take 4)) ∧
      (∀ (c : Bool) (rem : List Nat) (s : Subrecord),
        simple_subrecord input c = Except.ok (rem, s) →
        s.data.length = leNat ((input.drop 4).take 2)) ∧
      (∀ (o : Nat) (c : Bool) (rem : List Nat) (s : Subrecord),
        presized_subrecord input o c = Except.ok (rem, s) →
        s.data.length = o) := by
  intro input
  refine ⟨fun rem s h => ?_, fun c rem s h => ?_, fun o c rem s h => ?_⟩
  · exact (morrowind_subrecord_ok h).2.2.2.2.1
  · exact (simple_subrecord_ok h).2.2.2.2.1
  · exact (presized_subrecord_ok h).2.2.2.2.1

/-- Witness for C3: the three variants on the test vectors (payload
lengths 8, 10 and 4). -/
theorem spec_c3_witness :
    ((⟨asciiOf ("DATA"), [0x6D, 0x63, 0x61, 0x72, 0x6F, 0x66, 0x61, 0x6E],
        false⟩ : Subrecord).data.length = leNat ((tes3Input.drop 4).take 4)) ∧
    ((⟨asciiOf ("CNAM"),
        [0x6D, 0x63, 0x61, 0x72, 0x6F, 0x66, 0x61, 0x6E, 0x6F, 0x00],
        false⟩ : Subrecord).data.length = leNat ((tes4Input.drop 4).take 2)) ∧
    ((⟨asciiOf ("CNAM"), [0x6D, 0x63, 0x61, 0x72],
        false⟩ : Subrecord).data.length = 4) :=
  ⟨(spec_c3 tes3Input).1 [] _ rfl,
   (spec_c3 tes4Input).2.1 false [] _ rfl,
   (spec_c3 tes4Input).2.2 4 false [0x6F, 0x66, 0x61, 0x6E, 0x6F, 0x00] _ rfl⟩

/-- Claim C4: with a non-zero override and any non-Morrowind game id,
parsing is the presized variant, identical for all non-Morrowind ids;
it consumes the 4-byte tag and a 2-byte length field whose value does
not affect the result, then takes exactly the override bytes. -/
theorem spec_c4 :
    ∀ (input : List Nat) (o : Nat) (c : Bool),
      (∀ g1 g2 : GameId, g1 ≠ GameId.morrowind → g2 ≠ GameId.morrowind →
        o ≠ 0 →
        Subrecord.new input g1 o c = presized_subrecord input o c ∧
        Subrecord.new input g1 o c = Subrecord.new input g2 o c) ∧
      (∀ (t : List Nat) (a b a2 b2 : Nat) (rest : List Nat), t.length = 4 →
        presized_subrecord (t ++ a :: b :: rest) o c =
          presized_subrecord (t ++ a2 :: b2 :: rest) o c) ∧
      (∀ (rem : List Nat) (s : Subrecord),
        presized_subrecord input o c = Except.ok (rem, s) →
        rem = input.drop (6 + o) ∧ s.data = (input.drop 6).take o ∧
          s.data.length = o) := by
  intro input o c
  refine ⟨fun g1 g2 hg1 hg2 ho => ?_, fun t a b a2 b2 rest ht => ?_,
    fun rem s h => ?_⟩
  · have e1 : Subrecord.new input g1 o c = presized_subrecord input o c := by
      rw [Subrecord.new, if_neg hg1, if_pos ho]
    have e2 : Subrecord.new input g2 o c = presized_subrecord input o c := by
      rw [Subrecord.new, if_neg hg2, if_pos ho]
    exact ⟨e1, e1.trans e2.symm⟩
  · rw [presized_subrecord_shape ht, presized_subrecord_shape ht]
  · obtain ⟨-, -, -, hd, hdl, -, -, hrem⟩ := presized_subrecord_ok h
    exact ⟨hrem, hd, hdl⟩

/-- Witness for C4: the CNAM vector with override 4 under Skyrim and
Fallout4, a changed on-wire length field, and the success shape. -/
theorem spec_c4_witness :
    (Subrecord.new tes4Input GameId.skyrim 4 false =
        presized_subrecord tes4Input 4 false ∧
      Subrecord.new tes4Input GameId.skyrim 4 false =
        Subrecord.new tes4Input GameId.fallout4 4 false) ∧
    (presized_subrecord
        ([0x43, 0x4E, 0x41, 0x4D] ++ 0x0A :: 0x00 ::
          [0x6D, 0x63, 0x61, 0x72, 0x6F, 0x66, 0x61, 0x6E, 0x6F, 0x00]) 4 false =
      presized_subrecord
        ([0x43, 0x4E, 0x41, 0x4D] ++ 0xFF :: 0xFF ::
          [0x6D, 0x63, 0x61, 0x72, 0x6F, 0x66, 0x61, 0x6E, 0x6F, 0x00]) 4 false) ∧
    ([0x6F, 0x66, 0x61, 0x6E, 0x6F, 0x00] = tes4Input.drop (6 + 4) ∧
      (⟨asciiOf ("CNAM"), [0x6D, 0x63, 0x61, 0x72], false⟩ : Subrecord).data =
        (tes4Input.drop 6).take 4 ∧
      (⟨asciiOf ("CNAM"), [0x6D, 0x63, 0x61, 0x72], false⟩ : Subrecord).data.length
        = 4) :=
  ⟨(spec_c4 tes4Input 4 false).1 GameId.skyrim GameId.fallout4
      (by decide) (by decide) (by decide),
   (spec_c4 tes4Input 4 false).2.1 [0x43, 0x4E, 0x41, 0x4D] 0x0A 0x00 0xFF 0xFF
      [0x6D, 0x63, 0x61, 0x72, 0x6F, 0x66, 0x61, 0x6E, 0x6F, 0x00] rfl,
   (spec_c4 tes4Input 4 false).2.2 [0x6F, 0x66, 0x61, 0x6E, 0x6F, 0x00]
      ⟨asciiOf ("CNAM"), [0x6D, 0x63, 0x61, 0x72], false⟩ rfl⟩

/-- Claim C5: with at least 4 input bytes, type-tag decoding succeeds
exactly when the first 4 bytes are valid UTF-8 (zero bytes included),
and otherwise fails with the malformed error, not the incomplete one. -/
theorem spec_c5 :
    ∀ input : List Nat, 4 ≤ input.length →
      (validUtf8 (input.take 4) = true →
        subrecord_type input = Except.ok (input.drop 4, input.take 4)) ∧
      (validUtf8 (input.take 4) = false →
        subrecord_type input = Except.error NomErr.malformed ∧
        subrecord_type input ≠ Except.error NomErr.incomplete) := by
  intro input h4
  refine ⟨fun hv => subrecord_type_of_valid h4 hv, fun hv => ?_⟩
  have := subrecord_type_of_invalid h4 hv
  exact ⟨this, by rw [this]; intro hc; cases hc⟩

/-- Witness for C5: a tag containing a zero byte decodes successfully;
a tag with a UTF-8-breaking high byte is malformed, not incomplete. -/
theorem spec_c5_witness :
    (subrecord_type [0x44, 0x00, 0x54, 0x41, 0x99] =
      Except.ok ([0x99], [0x44, 0x00, 0x54, 0x41])) ∧
    (subrecord_type nonUtf8ShortInput = Except.error NomErr.malformed ∧
      subrecord_type nonUtf8ShortInput ≠ Except.error NomErr.incomplete) :=
  ⟨(spec_c5 [0x44, 0x00, 0x54, 0x41, 0x99] (by decide)).1 (by decide),
   (spec_c5 nonUtf8ShortInput (by decide)).2 (by decide)⟩

/-- Claim C6, counterexample: an input whose first 4 bytes are not
valid UTF-8 and which is also too short for its claimed 5-byte payload
is rejected as malformed, not incomplete — the tag is decoded first,
so the claim's unconditional incomplete-error is wrong here. -/
theorem spec_c6_counterexample :
    nonUtf8ShortInput.length < requiredLen nonUtf8ShortInput GameId.skyrim 0 ∧
    Subrecord.new nonUtf8ShortInput GameId.skyrim 0 false =
      Except.error NomErr.malformed ∧
    Subrecord.new nonUtf8ShortInput GameId.skyrim 0 false ≠
      Except.error NomErr.incomplete := by
  refine ⟨by decide, rfl, ?_⟩
  intro h
  rw [show Subrecord.new nonUtf8ShortInput GameId.skyrim 0 false =
    Except.error NomErr.malformed from rfl] at h
  cases h

/-- Claim C6 (amended): for every input on which type-tag decoding
does not fail (fewer than 4 bytes, or a valid-UTF-8 tag), being too
short for the fixed fields or for the claimed payload yields the
incomplete-input error, never the malformed one. -/
theorem spec_c6 :
    ∀ (input : List Nat) (g : GameId) (o : Nat) (c : Bool),
      (input.length < 4 ∨ validUtf8 (input.take 4) = true) →
      input.length < requiredLen input g o →
      Subrecord.new input g o c = Except.error NomErr.incomplete := by
  intro input g o c htag hshort
  by_cases hg : g = GameId.morrowind
  · rw [Subrecord.new, if_pos hg]
    rw [requiredLen, if_pos hg] at hshort
    exact morrowind_subrecord_incomplete htag hshort
  · rw [Subrecord.new, if_neg hg]
    rw [requiredLen, if_neg hg] at hshort
    by_cases ho : o ≠ 0
    · rw [if_pos ho]
      rw [if_pos ho] at hshort
      exact presized_subrecord_incomplete htag hshort
    · rw [if_neg ho]
      rw [if_neg ho] at hshort
      exact simple_subrecord_incomplete htag hshort

/-- Witness for C6: a valid-tag input truncated inside its claimed
payload (all three variants, including an out-of-range override). -/
theorem spec_c6_witness :
    Subrecord.new truncatedInput GameId.skyrim 0 false =
      Except.error NomErr.incomplete ∧
    Subrecord.new truncatedInput GameId.morrowind 0 false =
      Except.error NomErr.incomplete ∧
    Subrecord.new truncatedInput GameId.fallout3 7 false =
      Except.error NomErr.incomplete :=
  ⟨spec_c6 truncatedInput GameId.skyrim 0 false (Or.inr (by decide)) (by decide),
   spec_c6 truncatedInput GameId.morrowind 0 false (Or.inr (by decide)) (by decide),
   spec_c6 truncatedInput GameId.fallout3 7 false (Or.inr (by decide)) (by decide)⟩

/-- Claim C7: decompressing an uncompressed subrecord succeeds and
returns (a copy of) `data`; as a pure function, repeated calls all
return this same byte sequence. -/
theorem spec_c7 :
    ∀ s : Subrecord, s.is_compressed = false →
      decompress_data s = some (Except.ok s.data) := by
  intro s h
  rw [decompress_data, if_pos h]

/-- Witness for C7: the parsed CNAM subrecord decompresses to its own
payload. -/
theorem spec_c7_witness :
    decompress_data ⟨asciiOf ("CNAM"),
        [0x6D, 0x63, 0x61, 0x72, 0x6F, 0x66, 0x61, 0x6E, 0x6F, 0x00], false⟩ =
      some (Except.ok
        [0x6D, 0x63, 0x61, 0x72, 0x6F, 0x66, 0x61, 0x6E, 0x6F, 0x00]) :=
  spec_c7 ⟨asciiOf ("CNAM"),
    [0x6D, 0x63, 0x61, 0x72, 0x6F, 0x66, 0x61, 0x6E, 0x6F, 0x00], false⟩ rfl

set_option maxRecDepth 40000 in
/-- Claim C8: scenario 5 — the 35-byte BPTN input under Skyrim with a
zero override and the compressed flag parses to type tag "BPTN" with a
29-byte payload and `is_compressed = true`, and decompressing it skips
the 4-byte uncompressed-size hint and raw-DEFLATE-decodes the rest to
the ASCII bytes of "DEFLATE_DEFLATE_DEFLATE_DEFLATE". -/
theorem spec_c8 :
    Subrecord.new bptnInput GameId.skyrim 0 true =
      Except.ok ([], ⟨asciiOf ("BPTN"), bptnInput.drop 6, true⟩) ∧
    (bptnInput.drop 6).length = 29 ∧
    asciiOf ("BPTN") = [0x42, 0x50, 0x54, 0x4E] ∧
    decompress_data ⟨asciiOf ("BPTN"), bptnInput.drop 6, true⟩ =
      some (Except.ok (asciiOf ("DEFLATE_DEFLATE_DEFLATE_DEFLATE"))) :=
  ⟨rfl, rfl, rfl, rfl⟩

/-- Claim C9, counterexample: a compressed Subrecord whose data is
empty has a data tail (after the first 4 bytes) that is not a
well-formed DEFLATE stream, yet `decompress_data` does not return a
decompression error — it hits the out-of-bounds slice (`none`). -/
theorem spec_c9_counterexample :
    inflate (([] : List Nat).drop 4) = none ∧
    decompress_data ⟨asciiOf ("BPTN"), [], true⟩ = none := ⟨rfl, rfl⟩

set_option maxRecDepth 40000 in
/-- Claim C9 (amended): for every compressed Subrecord with at least 4
data bytes whose data after the first 4 bytes is not a well-formed
complete DEFLATE stream, decompression returns the decompression
error; in particular the scenario-6 corrupted input still parses, and
decompressing the result fails. -/
theorem spec_c9 :
    (∀ s : Subrecord, s.is_compressed = true → 4 ≤ s.data.length →
      inflate (s.data.drop 4) = none →
      decompress_data s = some (Except.error DecompErr.corrupt)) ∧
    (Subrecord.new bptnCorruptInput GameId.skyrim 0 true =
      Except.ok ([], ⟨asciiOf ("BPTN"), bptnCorruptInput.drop 6, true⟩) ∧
    inflate ((bptnCorruptInput.drop 6).drop 4) = none ∧
    decompress_data ⟨asciiOf ("BPTN"), bptnCorruptInput.drop 6, true⟩ =
      some (Except.error DecompErr.corrupt)) := by
  refine ⟨fun s h1 h2 h3 => ?_, rfl, rfl, rfl⟩
  rw [decompress_data, if_neg (by simp [h1]), if_neg (Nat.not_lt.mpr h2), h3]

/-- Witness for C9: a compressed subrecord whose tail `[0xFF]` has an
invalid block type decompresses to the error. -/
theorem spec_c9_witness :
    decompress_data ⟨asciiOf ("BPTN"), [0, 0, 0, 0, 0xFF], true⟩ =
      some (Except.error DecompErr.corrupt) :=
  spec_c9.1 ⟨asciiOf ("BPTN"), [0, 0, 0, 0, 0xFF], true⟩ rfl (by decide) rfl

/-- Claim C10: when `is_compressed` is true and `data` has fewer than
4 bytes, the slice `data[4..]` in `decompress_data` is out of bounds
(`none` in this total embedding, a panic in Rust), and such a
Subrecord is reachable through the public parser: a short-length
subrecord with on-wire length 0 and the compressed flag set. -/
theorem spec_c10 :
    (∀ s : Subrecord, s.is_compressed = true → s.data.length < 4 →
      decompress_data s = none) ∧
    (Subrecord.new emptyPayloadInput GameId.skyrim 0 true =
      Except.ok ([], ⟨asciiOf ("DATA"), [], true⟩) ∧
    decompress_data ⟨asciiOf ("DATA"), [], true⟩ = none) := by
  refine ⟨fun s h1 h2 => ?_, rfl, rfl⟩
  rw [decompress_data, if_neg (by simp [h1]), if_pos h2]

/-- Witness for C10: the empty compressed payload hits the
out-of-bounds branch. -/
theorem spec_c10_witness :
    decompress_data ⟨asciiOf ("DATA"), [], true⟩ = none :=
  spec_c10.1 ⟨asciiOf ("DATA"), [], true⟩ rfl (by decide)

end Esplugin

